import Mathlib

/-!
Verification of the trend scoring-and-ranking core of vault-saas-refined
(src/pages/pages/trends.tsx), shallowly embedded over exact rational
arithmetic.  JavaScript numbers are modelled as rationals; Math.round is
modelled as round-half-toward-positive-infinity, which is its behaviour on
every finite input.  Division by zero, which yields Infinity or NaN in
JavaScript, is avoided by the hypotheses of every theorem whose statement
depends on a division result.
-/

namespace Trends

/-- Platform enumeration from the Trend interface (trends.tsx line 17). -/
inductive Platform
  | tiktok
  | etsy
  | gumroad
deriving DecidableEq

/-- Input fields of one raw opportunity signal (the mock records of
fetchTrends carry exactly these fields before enrichment). -/
structure RawSignal where
  name : String
  platform : Platform
  velocity : ℚ
  cogs : ℚ
  fees : ℚ
  shipping : ℚ

/-- Scored record matching the Trend interface (trends.tsx lines 14-26). -/
structure ScoredTrend where
  id : String
  name : String
  platform : Platform
  velocity : ℚ
  profitScore : ℚ
  priceLadder : List ℚ
  cogs : ℚ
  fees : ℚ
  shipping : ℚ
  margin : ℚ
  createdAt : String

/-- JavaScript Math.round on a finite value: round half toward positive
infinity, i.e. the floor of x + 1/2. -/
def jsRound (x : ℚ) : ℤ := ⌊x + 1/2⌋

/-- Rounding to two decimal places as written in the source:
Math.round(p * 100) / 100 (trends.tsx line 37). -/
def round2 (p : ℚ) : ℚ := (jsRound (p * 100) : ℚ) / 100

/-- computeMargin from trends.tsx lines 31-33:
((price - cogs - fees - shipping) / price) * 100. -/
def computeMargin (price cogs fees shipping : ℚ) : ℚ :=
  ((price - cogs - fees - shipping) / price) * 100

/-- generatePriceLadder from trends.tsx lines 35-38: base is the sum of the
three cost components and the ladder is the two-decimal rounding of
base times 1.3, 1.6 and 2.0. -/
def generatePriceLadder (cogs fees shipping : ℚ) : List ℚ :=
  let base := cogs + fees + shipping
  [base * 1.3, base * 1.6, base * 2.0].map round2

/-- Margin of a raw signal as computed in fetchTrends line 64: the margin at
the first (lowest) ladder entry. -/
def marginOf (d : RawSignal) : ℚ :=
  computeMargin (generatePriceLadder d.cogs d.fees d.shipping).headI
    d.cogs d.fees d.shipping

/-- Profit score from fetchTrends line 69:
Math.min(100, Math.round(velocity * 0.2 + margin * 2)). -/
def profitScoreOf (velocity margin : ℚ) : ℚ :=
  min 100 (jsRound (velocity * 0.2 + margin * 2) : ℚ)

/-- Enrichment of one raw signal (body of the map in fetchTrends lines
62-74): spread of the input fields plus the computed fields. -/
def scoreTrend (d : RawSignal) (idx : ℕ) (now : String) : ScoredTrend :=
  { id := "mock-" ++ toString idx
    name := d.name
    platform := d.platform
    velocity := d.velocity
    profitScore := profitScoreOf d.velocity (marginOf d)
    priceLadder := generatePriceLadder d.cogs d.fees d.shipping
    cogs := d.cogs
    fees := d.fees
    shipping := d.shipping
    margin := marginOf d
    createdAt := now }

/-- Modelled from the spec: the identity-keyed upsert performed by the
external datastore on line 77 (upsert with conflict key name), whose
implementation is not part of this repository.  A record whose name matches
an existing row overwrites that row entirely; otherwise it is appended. -/
def upsertOne : List ScoredTrend → ScoredTrend → List ScoredTrend
  | [], r => [r]
  | t :: ts, r => if t.name = r.name then r :: ts else t :: upsertOne ts r

/-- Batch upsert: the records of one enrichment pass are merged in order. -/
def upsertBatch (existing batch : List ScoredTrend) : List ScoredTrend :=
  batch.foldl upsertOne existing

/-- Boolean comparison realising the query of line 78: order by profitScore
descending.  No other sort key is requested in the source. -/
def scoreDescBool (a b : ScoredTrend) : Bool :=
  decide (b.profitScore ≤ a.profitScore)

/-- Ranked read of line 78, modelled from the source query: the external
datastore returns the rows ordered by profitScore descending.  No other
sort key is requested in the source and the datastore tie order is not
specified, so the model resolves ties by keeping merge order, as a stable
sort does. -/
def rankByProfitScore (coll : List ScoredTrend) : List ScoredTrend :=
  coll.mergeSort scoreDescBool

/-- The Reconciler: merge the freshly scored batch into the existing
collection keyed by name, then return the collection ranked by score
(trends.tsx lines 77-78). -/
def reconcile (existing batch : List ScoredTrend) : List ScoredTrend :=
  rankByProfitScore (upsertBatch existing batch)

/-- Ordering predicate taken from the words of the spec (section 4.4):
profitScore descending with ties broken by name ascending. -/
def specRanked (l : List ScoredTrend) : Prop :=
  l.Pairwise (fun a b =>
    b.profitScore < a.profitScore ∨
      (a.profitScore = b.profitScore ∧ a.name < b.name))

/-- Clamp formula taken from the words of the spec (section 4.3):
clamp(round(velocity * 0.2 + margin * 2), 0, 100), clamped below at 0 and
above at 100. -/
def profitScoreSpec (velocity margin : ℚ) : ℚ :=
  max 0 (min 100 (jsRound (velocity * 0.2 + margin * 2) : ℚ))

/- ------------------------------------------------------------------ -/
/- Helper lemmas on rounding.                                          -/
/- ------------------------------------------------------------------ -/

lemma jsRound_eq_of (x : ℚ) (n : ℤ) (h1 : (n : ℚ) ≤ x + 1/2)
    (h2 : x + 1/2 < n + 1) : jsRound x = n := by
  rw [jsRound]
  refine Int.floor_eq_iff.mpr ⟨h1, ?_⟩
  linarith

lemma jsRound_mono {x y : ℚ} (h : x ≤ y) : jsRound x ≤ jsRound y :=
  Int.floor_le_floor (by linarith)

lemma jsRound_gt (x : ℚ) : x - 1/2 < (jsRound x : ℚ) := by
  have h := Int.sub_one_lt_floor (x + 1/2)
  rw [jsRound]
  linarith

lemma jsRound_lt_of_add_one_le {x y : ℚ} (h : x + 1 ≤ y) :
    jsRound x < jsRound y := by
  have h1 : ((jsRound x + 1 : ℤ) : ℚ) ≤ y + 1/2 := by
    push_cast
    have := Int.floor_le (x + 1/2)
    rw [jsRound]
    linarith
  have h2 : jsRound x + 1 ≤ jsRound y := by
    rw [jsRound]
    exact Int.le_floor.mpr h1
  omega

lemma round2_mono {x y : ℚ} (h : x ≤ y) : round2 x ≤ round2 y := by
  rw [round2, round2]
  have := jsRound_mono (show x * 100 ≤ y * 100 by linarith)
  have : (jsRound (x * 100) : ℚ) ≤ (jsRound (y * 100) : ℚ) := by
    exact_mod_cast this
  linarith

lemma round2_gt (x : ℚ) : x - 1/200 < round2 x := by
  rw [round2]
  have := jsRound_gt (x * 100)
  linarith

lemma round2_lt_of {x y : ℚ} (h : x * 100 + 1 ≤ y * 100) :
    round2 x < round2 y := by
  rw [round2, round2]
  have := jsRound_lt_of_add_one_le h
  have : (jsRound (x * 100) : ℚ) < (jsRound (y * 100) : ℚ) := by
    exact_mod_cast this
  linarith

lemma round2_eval (p : ℚ) (n : ℤ) (h1 : (n : ℚ) ≤ p * 100 + 1/2)
    (h2 : p * 100 + 1/2 < n + 1) : round2 p = n / 100 := by
  rw [round2, jsRound_eq_of (p * 100) n h1 h2]

lemma ladder_eval_tiny (v : ℚ) (nm : String) (pf : Platform) :
    generatePriceLadder (23/2000) 0 0 = [1/100, 1/50, 1/50] ∧
      marginOf ⟨nm, pf, v, 23/2000, 0, 0⟩ = -15 := by
  have hL : generatePriceLadder ((23:ℚ)/2000) 0 0 = [1/100, 1/50, 1/50] := by
    simp only [generatePriceLadder, List.map_cons, List.map_nil]
    rw [round2_eval _ 1 (by norm_num) (by norm_num),
      round2_eval _ 2 (by norm_num) (by norm_num),
      round2_eval _ 2 (by norm_num) (by norm_num)]
    norm_num
  refine ⟨hL, ?_⟩
  rw [marginOf]
  show computeMargin (generatePriceLadder ((23:ℚ)/2000) 0 0).headI
    (23/2000) 0 0 = -15
  rw [hL]
  rw [show ([1/100, 1/50, 1/50] : List ℚ).headI = 1/100 from rfl]
  rw [computeMargin]
  norm_num

lemma ladder_eval_led :
    generatePriceLadder (2.5 : ℚ) 0.8 1.2 = [5.85, 7.2, 9] ∧
      marginOf ⟨"#LEDcollars", Platform.tiktok, 450, 2.5, 0.8, 1.2⟩ =
        300/13 := by
  have hL : generatePriceLadder (2.5 : ℚ) 0.8 1.2 = [5.85, 7.2, 9] := by
    simp only [generatePriceLadder, List.map_cons, List.map_nil]
    rw [round2_eval _ 585 (by norm_num) (by norm_num),
      round2_eval _ 720 (by norm_num) (by norm_num),
      round2_eval _ 900 (by norm_num) (by norm_num)]
    norm_num
  refine ⟨hL, ?_⟩
  rw [marginOf]
  show computeMargin (generatePriceLadder (2.5 : ℚ) 0.8 1.2).headI
    2.5 0.8 1.2 = 300/13
  rw [hL]
  rw [show ([5.85, 7.2, 9] : List ℚ).headI = 5.85 from rfl]
  rw [computeMargin]
  norm_num

lemma computeMargin_eq_sum (p c f s : ℚ) :
    computeMargin p c f s = ((p - (c + f + s)) / p) * 100 := by
  rw [computeMargin]
  ring_nf

/- ------------------------------------------------------------------ -/
/- Helper lemmas on the reconciler.                                    -/
/- ------------------------------------------------------------------ -/

lemma mem_map_name_upsertOne (r : ScoredTrend) (coll : List ScoredTrend)
    (x : String) :
    x ∈ (upsertOne coll r).map ScoredTrend.name ↔
      x ∈ coll.map ScoredTrend.name ∨ x = r.name := by
  induction coll with
  | nil => simp [upsertOne]
  | cons t ts ih =>
    by_cases htr : t.name = r.name
    · rw [show upsertOne (t :: ts) r = r :: ts from by
        rw [upsertOne, if_pos htr]]
      simp only [List.map_cons, List.mem_cons, htr]
      tauto
    · rw [show upsertOne (t :: ts) r = t :: upsertOne ts r from by
        rw [upsertOne, if_neg htr]]
      simp only [List.map_cons, List.mem_cons, ih]
      tauto

lemma nodup_names_upsertOne (r : ScoredTrend) (coll : List ScoredTrend)
    (h : (coll.map ScoredTrend.name).Nodup) :
    ((upsertOne coll r).map ScoredTrend.name).Nodup := by
  induction coll with
  | nil => simp [upsertOne]
  | cons t ts ih =>
    rw [List.map_cons, List.nodup_cons] at h
    by_cases htr : t.name = r.name
    · rw [show upsertOne (t :: ts) r = r :: ts from by
        rw [upsertOne, if_pos htr]]
      rw [List.map_cons, List.nodup_cons]
      exact ⟨htr ▸ h.1, h.2⟩
    · rw [show upsertOne (t :: ts) r = t :: upsertOne ts r from by
        rw [upsertOne, if_neg htr]]
      rw [List.map_cons, List.nodup_cons]
      refine ⟨fun hmem => ?_, ih h.2⟩
      rcases (mem_map_name_upsertOne r ts t.name).mp hmem with h1 | h1
      · exact h.1 h1
      · exact htr h1

lemma filter_name_eq_nil (coll : List ScoredTrend) (nm : String)
    (h : nm ∉ coll.map ScoredTrend.name) :
    coll.filter (fun t => t.name == nm) = [] := by
  rw [List.filter_eq_nil_iff]
  intro a ha
  simp only [beq_iff_eq]
  intro heq
  exact h (heq ▸ List.mem_map_of_mem ScoredTrend.name ha)

lemma filter_upsertOne (r : ScoredTrend) (coll : List ScoredTrend)
    (h : (coll.map ScoredTrend.name).Nodup) :
    (upsertOne coll r).filter (fun t => t.name == r.name) = [r] := by
  induction coll with
  | nil => simp [upsertOne]
  | cons t ts ih =>
    rw [List.map_cons, List.nodup_cons] at h
    by_cases htr : t.name = r.name
    · rw [show upsertOne (t :: ts) r = r :: ts from by
        rw [upsertOne, if_pos htr]]
      rw [List.filter_cons_of_pos (by simp)]
      rw [filter_name_eq_nil ts r.name (htr ▸ h.1)]
    · rw [show upsertOne (t :: ts) r = t :: upsertOne ts r from by
        rw [upsertOne, if_neg htr]]
      rw [List.filter_cons_of_neg (by simp [htr])]
      exact ih h.2

lemma nodup_names_upsertBatch (batch : List ScoredTrend) :
    ∀ coll : List ScoredTrend, (coll.map ScoredTrend.name).Nodup →
      ((upsertBatch coll batch).map ScoredTrend.name).Nodup := by
  induction batch with
  | nil => intro coll hc; simpa [upsertBatch] using hc
  | cons b bs ih =>
    intro coll hc
    rw [show upsertBatch coll (b :: bs) =
      upsertBatch (upsertOne coll b) bs from rfl]
    exact ih _ (nodup_names_upsertOne b coll hc)

lemma perm_rankByProfitScore (l : List ScoredTrend) :
    (rankByProfitScore l).Perm l := by
  rw [rankByProfitScore]
  exact List.mergeSort_perm l scoreDescBool

/- ------------------------------------------------------------------ -/
/- Claims C5 and C6.                                                   -/
/- ------------------------------------------------------------------ -/

/-- C5 counterexample: two records with equal profitScore 50 and names b
then a.  Reconciling them into the empty collection returns them in merge
order b, a: the code orders by profitScore only and applies no ascending
name tie-break. -/
theorem c5_counterexample :
    ¬ specRanked (reconcile []
      [⟨"1", "b", Platform.tiktok, 0, 50, [], 0, 0, 0, 0, "t"⟩,
        ⟨"2", "a", Platform.tiktok, 0, 50, [], 0, 0, 0, 0, "t"⟩]) := by
  have hup : upsertBatch []
      [⟨"1", "b", Platform.tiktok, 0, 50, [], 0, 0, 0, 0, "t"⟩,
        ⟨"2", "a", Platform.tiktok, 0, 50, [], 0, 0, 0, 0, "t"⟩] =
      [⟨"1", "b", Platform.tiktok, 0, 50, [], 0, 0, 0, 0, "t"⟩,
        ⟨"2", "a", Platform.tiktok, 0, 50, [], 0, 0, 0, 0, "t"⟩] := by
    show upsertOne (upsertOne []
      ⟨"1", "b", Platform.tiktok, 0, 50, [], 0, 0, 0, 0, "t"⟩)
      ⟨"2", "a", Platform.tiktok, 0, 50, [], 0, 0, 0, 0, "t"⟩ = _
    rw [show upsertOne []
      (⟨"1", "b", Platform.tiktok, 0, 50, [], 0, 0, 0, 0, "t"⟩ :
        ScoredTrend) =
      [⟨"1", "b", Platform.tiktok, 0, 50, [], 0, 0, 0, 0, "t"⟩] from rfl]
    rw [upsertOne, if_neg (by decide : ¬ ("b" : String) = "a")]
    rfl
  have hsort : rankByProfitScore
      [⟨"1", "b", Platform.tiktok, 0, 50, [], 0, 0, 0, 0, "t"⟩,
        ⟨"2", "a", Platform.tiktok, 0, 50, [], 0, 0, 0, 0, "t"⟩] =
      [⟨"1", "b", Platform.tiktok, 0, 50, [], 0, 0, 0, 0, "t"⟩,
        ⟨"2", "a", Platform.tiktok, 0, 50, [], 0, 0, 0, 0, "t"⟩] := by
    rw [rankByProfitScore]
    apply List.mergeSort_of_sorted
    rw [List.pairwise_cons]
    refine ⟨fun y hy => ?_, by simp⟩
    rw [List.mem_singleton] at hy
    rw [hy]
    simp only [scoreDescBool, decide_eq_true_eq]
    norm_num
  rw [specRanked, reconcile, hup, hsort]
  intro h
  have h1 := (List.pairwise_cons.mp h).1
    ⟨"2", "a", Platform.tiktok, 0, 50, [], 0, 0, 0, 0, "t"⟩ (by simp)
  rcases h1 with h1 | ⟨h1, h2⟩
  · norm_num at h1
  · rw [String.lt_iff_toList_lt] at h2
    revert h2
    decide

/-- C5 amended: the reconciled collection is sorted by profitScore
descending and is a permutation of the merged collection; the code requests
no secondary sort key, so records with equal profitScore keep merge order
rather than ascending name order. -/
theorem c5_reconcile_sorted_by_score_desc
    (existing batch : List ScoredTrend) :
    List.Pairwise
        (fun a b : ScoredTrend => b.profitScore ≤ a.profitScore)
        (reconcile existing batch) ∧
      (reconcile existing batch).Perm (upsertBatch existing batch) := by
  constructor
  · rw [reconcile, rankByProfitScore]
    have htrans : ∀ a b c : ScoredTrend, scoreDescBool a b = true →
        scoreDescBool b c = true → scoreDescBool a c = true := by
      intro a b c hab hbc
      simp only [scoreDescBool, decide_eq_true_eq] at hab hbc ⊢
      exact le_trans hbc hab
    have htotal : ∀ a b : ScoredTrend,
        (scoreDescBool a b || scoreDescBool b a) = true := by
      intro a b
      simp only [scoreDescBool, Bool.or_eq_true, decide_eq_true_eq]
      exact le_total b.profitScore a.profitScore
    have h := List.sorted_mergeSort htrans htotal
      (upsertBatch existing batch)
    exact h.imp (fun hab => by
      simpa only [scoreDescBool, decide_eq_true_eq] using hab)
  · rw [reconcile]
    exact perm_rankByProfitScore _

/-- C6: when the existing collection has pairwise distinct names (the
datastore enforces a unique key on name), the reconciled collection still
has pairwise distinct names; merging one record leaves exactly that record
under its name (overwrite or insert); and merging the same name twice
leaves exactly one record carrying the second pass values. -/
theorem c6_reconcile_at_most_one_per_name (existing : List ScoredTrend)
    (h : (existing.map ScoredTrend.name).Nodup) :
    (∀ batch, ((reconcile existing batch).map ScoredTrend.name).Nodup) ∧
      (∀ r, (reconcile existing [r]).filter
        (fun t => t.name == r.name) = [r]) ∧
      (∀ r r2, r.name = r2.name →
        (reconcile existing [r, r2]).filter
          (fun t => t.name == r2.name) = [r2]) := by
  refine ⟨?_, ?_, ?_⟩
  · intro batch
    rw [reconcile]
    have hperm := (perm_rankByProfitScore
      (upsertBatch existing batch)).map ScoredTrend.name
    exact hperm.nodup_iff.mpr (nodup_names_upsertBatch batch existing h)
  · intro r
    rw [reconcile]
    have hperm := (perm_rankByProfitScore
      (upsertBatch existing [r])).filter (fun t => t.name == r.name)
    rw [show upsertBatch existing [r] = upsertOne existing r from rfl,
      filter_upsertOne r existing h] at hperm
    exact List.perm_singleton.mp hperm
  · intro r r2 hrr
    rw [reconcile]
    have hperm := (perm_rankByProfitScore
      (upsertBatch existing [r, r2])).filter (fun t => t.name == r2.name)
    rw [show upsertBatch existing [r, r2] =
        upsertOne (upsertOne existing r) r2 from rfl,
      filter_upsertOne r2 (upsertOne existing r)
        (nodup_names_upsertOne r existing h)] at hperm
    exact List.perm_singleton.mp hperm

/-- Witness for C6: reconciling two records named a into the empty
collection keeps exactly the second one. -/
theorem c6_reconcile_at_most_one_per_name_witness :
    (([] : List ScoredTrend).map ScoredTrend.name).Nodup ∧
      (reconcile []
          [⟨"id1", "a", Platform.tiktok, 1, 50, [], 1, 1, 1, 10, "t1"⟩,
            ⟨"id2", "a", Platform.etsy, 2, 60, [], 2, 2, 2, 20, "t2"⟩]).filter
        (fun t => t.name ==
          (⟨"id2", "a", Platform.etsy, 2, 60, [], 2, 2, 2, 20, "t2"⟩ :
            ScoredTrend).name) =
      [⟨"id2", "a", Platform.etsy, 2, 60, [], 2, 2, 2, 20, "t2"⟩] :=
  ⟨by simp,
    (c6_reconcile_at_most_one_per_name [] (by simp)).2.2
      ⟨"id1", "a", Platform.tiktok, 1, 50, [], 1, 1, 1, 10, "t1"⟩
      ⟨"id2", "a", Platform.etsy, 2, 60, [], 2, 2, 2, 20, "t2"⟩ rfl⟩

/- ------------------------------------------------------------------ -/
/- Claims C1, C2, C3, C4.                                              -/
/- ------------------------------------------------------------------ -/

/-- C1 counterexample: at velocity 10, cogs 0.0115, fees 0, shipping 0 the
code computes a profit score of -28, while the spec formula
clamp(round(velocity * 0.2 + margin * 2), 0, 100) gives 0: the code applies
no lower clamp at 0. -/
theorem c1_counterexample :
    (scoreTrend ⟨"sig", Platform.tiktok, 10, 23/2000, 0, 0⟩ 0 "t").profitScore
        = -28 ∧
      profitScoreSpec 10
        (marginOf ⟨"sig", Platform.tiktok, 10, 23/2000, 0, 0⟩) = 0 ∧
      (scoreTrend ⟨"sig", Platform.tiktok, 10, 23/2000, 0, 0⟩ 0
          "t").profitScore ≠
        profitScoreSpec 10
          (marginOf ⟨"sig", Platform.tiktok, 10, 23/2000, 0, 0⟩) := by
  have hm := (ladder_eval_tiny 10 "sig" Platform.tiktok).2
  have hr : jsRound ((10:ℚ) * 0.2 + (-15) * 2) = -28 :=
    jsRound_eq_of _ _ (by norm_num) (by norm_num)
  have h1 : (scoreTrend ⟨"sig", Platform.tiktok, 10, 23/2000, 0, 0⟩ 0
      "t").profitScore = -28 := by
    show profitScoreOf 10
      (marginOf ⟨"sig", Platform.tiktok, 10, 23/2000, 0, 0⟩) = -28
    rw [profitScoreOf, hm, hr]
    rw [show (((-28 : ℤ) : ℚ)) = -28 by norm_num]
    exact min_eq_right (by norm_num)
  have h2 : profitScoreSpec 10
      (marginOf ⟨"sig", Platform.tiktok, 10, 23/2000, 0, 0⟩) = 0 := by
    rw [profitScoreSpec, hm, hr]
    rw [show (((-28 : ℤ) : ℚ)) = -28 by norm_num]
    rw [min_eq_right (by norm_num : (-28:ℚ) ≤ 100)]
    exact max_eq_left (by norm_num)
  exact ⟨h1, h2, by rw [h1, h2]; norm_num⟩

/-- C1 amended: the profit score equals min(100, round(velocity * 0.2 +
margin * 2)), the products summed before rounding; the rounded sum is
clamped above at 100 but not below at 0, so the spec clamp formula agrees
with the code exactly when the rounded sum is non-negative. -/
theorem c1_profit_score_upper_clamp_only (d : RawSignal) (idx : ℕ)
    (now : String) :
    (scoreTrend d idx now).profitScore =
        min 100 (jsRound (d.velocity * 0.2 + marginOf d * 2) : ℚ) ∧
      (0 ≤ jsRound (d.velocity * 0.2 + marginOf d * 2) →
        (scoreTrend d idx now).profitScore =
          profitScoreSpec d.velocity (marginOf d)) := by
  refine ⟨rfl, fun h => ?_⟩
  show profitScoreOf d.velocity (marginOf d) = _
  rw [profitScoreOf, profitScoreSpec]
  have h0 : (0:ℚ) ≤ (jsRound (d.velocity * 0.2 + marginOf d * 2) : ℚ) := by
    exact_mod_cast h
  rw [max_eq_right (le_min (by norm_num) h0)]

/-- Witness for C1 amended: the first mock record of the source (velocity
450, costs 2.5 + 0.8 + 1.2) has rounded sum 136 >= 0, and the code output
agrees with the spec clamp there. -/
theorem c1_profit_score_upper_clamp_only_witness :
    0 ≤ jsRound
        ((⟨"#LEDcollars", Platform.tiktok, 450, 2.5, 0.8, 1.2⟩ :
          RawSignal).velocity * 0.2 +
          marginOf ⟨"#LEDcollars", Platform.tiktok, 450, 2.5, 0.8, 1.2⟩ * 2) ∧
      (scoreTrend ⟨"#LEDcollars", Platform.tiktok, 450, 2.5, 0.8, 1.2⟩ 0
          "t").profitScore =
        profitScoreSpec
          (⟨"#LEDcollars", Platform.tiktok, 450, 2.5, 0.8, 1.2⟩ :
            RawSignal).velocity
          (marginOf ⟨"#LEDcollars", Platform.tiktok, 450, 2.5, 0.8, 1.2⟩) := by
  have hm := ladder_eval_led.2
  have h0 : 0 ≤ jsRound
      ((⟨"#LEDcollars", Platform.tiktok, 450, 2.5, 0.8, 1.2⟩ :
        RawSignal).velocity * 0.2 +
        marginOf ⟨"#LEDcollars", Platform.tiktok, 450, 2.5, 0.8, 1.2⟩ * 2) := by
    show 0 ≤ jsRound ((450:ℚ) * 0.2 +
      marginOf ⟨"#LEDcollars", Platform.tiktok, 450, 2.5, 0.8, 1.2⟩ * 2)
    rw [hm]
    rw [jsRound_eq_of _ 136 (by norm_num) (by norm_num)]
    norm_num
  exact ⟨h0,
    (c1_profit_score_upper_clamp_only
      ⟨"#LEDcollars", Platform.tiktok, 450, 2.5, 0.8, 1.2⟩ 0 "t").2 h0⟩

/-- C2 counterexample: at velocity 0, cogs 0.0115, fees 0, shipping 0 the
scorer produces a result (the first ladder entry is nonzero, so no division
by zero occurs), yet the profit score is -30, outside [0, 100]. -/
theorem c2_counterexample :
    (generatePriceLadder (23/2000) 0 0).headI ≠ 0 ∧
      (scoreTrend ⟨"sig", Platform.tiktok, 0, 23/2000, 0, 0⟩ 0
        "t").profitScore < 0 := by
  have hE := ladder_eval_tiny 0 "sig" Platform.tiktok
  constructor
  · rw [hE.1]
    norm_num
  · show profitScoreOf 0
      (marginOf ⟨"sig", Platform.tiktok, 0, 23/2000, 0, 0⟩) < 0
    rw [profitScoreOf, hE.2]
    rw [jsRound_eq_of ((0:ℚ) * 0.2 + (-15) * 2) (-30) (by norm_num)
      (by norm_num)]
    rw [show (((-30 : ℤ) : ℚ)) = -30 by norm_num]
    rw [min_eq_right (by norm_num : (-30:ℚ) ≤ 100)]
    norm_num

/-- C2 amended: for every raw signal with non-negative velocity and cost
components on which the scorer produces a result (nonzero first ladder
entry), the profit score is an integer and at most 100; it is not bounded
below by 0. -/
theorem c2_profit_score_integer_le_100 (d : RawSignal) (idx : ℕ)
    (now : String) (hv : 0 ≤ d.velocity) (hc : 0 ≤ d.cogs)
    (hf : 0 ≤ d.fees) (hs : 0 ≤ d.shipping)
    (hres : (generatePriceLadder d.cogs d.fees d.shipping).headI ≠ 0) :
    (∃ n : ℤ, (scoreTrend d idx now).profitScore = (n : ℚ)) ∧
      (scoreTrend d idx now).profitScore ≤ 100 := by
  constructor
  · refine ⟨min 100 (jsRound (d.velocity * 0.2 + marginOf d * 2)), ?_⟩
    show profitScoreOf d.velocity (marginOf d) = _
    rw [profitScoreOf]
    push_cast [Int.cast_min]
    rfl
  · show profitScoreOf d.velocity (marginOf d) ≤ 100
    rw [profitScoreOf]
    exact min_le_left _ _

/-- Witness for C2 amended at the first mock record of the source. -/
theorem c2_profit_score_integer_le_100_witness :
    ((0:ℚ) ≤ 450 ∧ (0:ℚ) ≤ 2.5 ∧ (0:ℚ) ≤ 0.8 ∧ (0:ℚ) ≤ 1.2 ∧
        (generatePriceLadder (2.5 : ℚ) 0.8 1.2).headI ≠ 0) ∧
      (∃ n : ℤ,
        (scoreTrend ⟨"#LEDcollars", Platform.tiktok, 450, 2.5, 0.8, 1.2⟩ 1
          "t").profitScore = (n : ℚ)) ∧
      (scoreTrend ⟨"#LEDcollars", Platform.tiktok, 450, 2.5, 0.8, 1.2⟩ 1
        "t").profitScore ≤ 100 := by
  have hres : (generatePriceLadder (2.5 : ℚ) 0.8 1.2).headI ≠ 0 := by
    rw [ladder_eval_led.1]
    norm_num
  have h := c2_profit_score_integer_le_100
    ⟨"#LEDcollars", Platform.tiktok, 450, 2.5, 0.8, 1.2⟩ 1 "t"
    (by norm_num) (by norm_num) (by norm_num) (by norm_num) hres
  exact ⟨⟨by norm_num, by norm_num, by norm_num, by norm_num, hres⟩, h⟩

/-- C3 counterexample: at cogs 0.0115, fees 0, shipping 0 the ladder is
[0.01, 0.02, 0.02]: it is not strictly increasing, its first entry is below
base = 0.0115, and no entry strictly exceeds base is violated although
base > 0. -/
theorem c3_counterexample :
    (0:ℚ) ≤ 23/2000 ∧ (0:ℚ) < 23/2000 + 0 + 0 ∧
      generatePriceLadder (23/2000) 0 0 = [1/100, 1/50, 1/50] ∧
      ¬ List.Pairwise (fun a b : ℚ => a < b)
        (generatePriceLadder (23/2000) 0 0) ∧
      ¬ (∀ x ∈ generatePriceLadder (23/2000) 0 0,
          (23:ℚ)/2000 + 0 + 0 ≤ x) ∧
      ¬ (∀ x ∈ generatePriceLadder (23/2000) 0 0,
          (23:ℚ)/2000 + 0 + 0 < x) := by
  have hL := (ladder_eval_tiny 0 "sig" Platform.tiktok).1
  refine ⟨by norm_num, by norm_num, hL, ?_, ?_, ?_⟩
  · rw [hL]
    intro h
    have h2 := (List.pairwise_cons.mp
      (List.pairwise_cons.mp h).2).1 (1/50) (by simp)
    norm_num at h2
  · rw [hL]
    intro h
    have h1 := h (1/100) (by simp)
    norm_num at h1
  · rw [hL]
    intro h
    have h1 := h (1/100) (by simp)
    norm_num at h1

/-- C3 amended: for cogs, fees, shipping >= 0 the ladder is non-decreasing
and every entry is at least base - 1/200 (two-decimal rounding can lose at
most half a cent); whenever base >= 1/30 the ladder is strictly increasing
and every entry strictly exceeds base. -/
theorem c3_ladder_nondecreasing_and_near_base (c f s : ℚ)
    (hc : 0 ≤ c) (hf : 0 ≤ f) (hs : 0 ≤ s) :
    List.Pairwise (fun a b : ℚ => a ≤ b) (generatePriceLadder c f s) ∧
      (∀ x ∈ generatePriceLadder c f s, c + f + s - 1/200 ≤ x) ∧
      (1/30 ≤ c + f + s →
        List.Pairwise (fun a b : ℚ => a < b) (generatePriceLadder c f s) ∧
          ∀ x ∈ generatePriceLadder c f s, c + f + s < x) := by
  have hb : 0 ≤ c + f + s := by linarith
  simp only [generatePriceLadder, List.map_cons, List.map_nil,
    List.pairwise_cons, List.mem_cons, List.not_mem_nil, or_false,
    List.Pairwise.nil, and_true]
  refine ⟨?_, ?_, ?_⟩
  · refine ⟨fun y hy => ?_, fun y hy => ?_, ?_⟩
    · rcases hy with h | h
      · rw [h]
        exact round2_mono (by linarith)
      · rw [h]
        exact round2_mono (by linarith)
    · rw [hy]
      exact round2_mono (by linarith)
    · exact fun y hy => hy.elim
  · intro x hx
    rcases hx with h | h | h
    · have := round2_gt ((c + f + s) * 1.3)
      rw [h]
      nlinarith
    · have := round2_gt ((c + f + s) * 1.6)
      rw [h]
      nlinarith
    · have := round2_gt ((c + f + s) * 2.0)
      rw [h]
      nlinarith
  · intro h30
    refine ⟨⟨fun y hy => ?_, fun y hy => ?_, ?_⟩, ?_⟩
    · rcases hy with h | h
      · rw [h]
        exact round2_lt_of (by linarith)
      · rw [h]
        exact round2_lt_of (by linarith)
    · rw [hy]
      exact round2_lt_of (by linarith)
    · exact fun y hy => hy.elim
    · intro x hx
      rcases hx with h | h | h
      · have := round2_gt ((c + f + s) * 1.3)
        rw [h]
        nlinarith
      · have := round2_gt ((c + f + s) * 1.6)
        rw [h]
        nlinarith
      · have := round2_gt ((c + f + s) * 2.0)
        rw [h]
        nlinarith

/-- Witness for C3 amended at the first mock record costs 2.5, 0.8, 1.2. -/
theorem c3_ladder_nondecreasing_and_near_base_witness :
    ((0:ℚ) ≤ 2.5 ∧ (0:ℚ) ≤ 0.8 ∧ (0:ℚ) ≤ 1.2 ∧
        (1:ℚ)/30 ≤ 2.5 + 0.8 + 1.2) ∧
      List.Pairwise (fun a b : ℚ => a < b)
        (generatePriceLadder (2.5 : ℚ) 0.8 1.2) ∧
      ∀ x ∈ generatePriceLadder (2.5 : ℚ) 0.8 1.2,
        (2.5 : ℚ) + 0.8 + 1.2 < x := by
  have h := c3_ladder_nondecreasing_and_near_base 2.5 0.8 1.2
    (by norm_num) (by norm_num) (by norm_num)
  exact ⟨⟨by norm_num, by norm_num, by norm_num, by norm_num⟩,
    (h.2.2 (by norm_num)).1, (h.2.2 (by norm_num)).2⟩

/-- C4 counterexample: base = 0.003 is positive, yet the first ladder entry
rounds to 0, so the margin computation at the lowest ladder price divides
by zero; the division-by-zero branch is reachable for 0 < base < 1/260. -/
theorem c4_counterexample :
    (0:ℚ) < 3/1000 + 0 + 0 ∧
      (generatePriceLadder (3/1000) 0 0).headI = 0 := by
  refine ⟨by norm_num, ?_⟩
  simp only [generatePriceLadder, List.map_cons, List.map_nil, List.headI]
  rw [round2_eval _ 0 (by norm_num) (by norm_num)]
  norm_num

/-- C4 amended: whenever base = cogs + fees + shipping is at least 1/260,
the first (lowest) ladder entry is positive, hence nonzero, so the margin
division at the lowest ladder price cannot divide by zero. -/
theorem c4_first_ladder_entry_positive (c f s : ℚ)
    (h : 1/260 ≤ c + f + s) :
    0 < (generatePriceLadder c f s).headI ∧
      (generatePriceLadder c f s).headI ≠ 0 := by
  have hpos : 0 < (generatePriceLadder c f s).headI := by
    simp only [generatePriceLadder, List.map_cons, List.map_nil, List.headI]
    rw [round2]
    have h1 : (1:ℤ) ≤ jsRound ((c + f + s) * 1.3 * 100) := by
      rw [jsRound]
      refine Int.le_floor.mpr ?_
      push_cast
      linarith
    have h2 : (1:ℚ) ≤ (jsRound ((c + f + s) * 1.3 * 100) : ℚ) := by
      exact_mod_cast h1
    positivity
  exact ⟨hpos, ne_of_gt hpos⟩

/-- Witness for C4 amended at costs 2.5, 0.8, 1.2. -/
theorem c4_first_ladder_entry_positive_witness :
    (1:ℚ)/260 ≤ 2.5 + 0.8 + 1.2 ∧
      0 < (generatePriceLadder (2.5 : ℚ) 0.8 1.2).headI :=
  ⟨by norm_num,
    (c4_first_ladder_entry_positive 2.5 0.8 1.2 (by norm_num)).1⟩

/- ------------------------------------------------------------------ -/
/- Claims C7, C8, C9, C10.                                             -/
/- ------------------------------------------------------------------ -/

/-- C7: for every price > 0 and cost components cogs, fees, shipping >= 0,
the Margin Calculator returns exactly ((price - cogs - fees - shipping) /
price) * 100, and it is a pure function: identical inputs always yield an
identical result. -/
theorem c7_margin_formula_and_pure (p c f s : ℚ) (hp : 0 < p)
    (hc : 0 ≤ c) (hf : 0 ≤ f) (hs : 0 ≤ s) :
    computeMargin p c f s = ((p - c - f - s) / p) * 100 ∧
      ∀ p2 c2 f2 s2 : ℚ, p = p2 → c = c2 → f = f2 → s = s2 →
        computeMargin p c f s = computeMargin p2 c2 f2 s2 := by
  refine ⟨rfl, ?_⟩
  intro p2 c2 f2 s2 h1 h2 h3 h4
  rw [h1, h2, h3, h4]

/-- Witness for C7 at price 2 and costs 1, 0, 0. -/
theorem c7_margin_formula_and_pure_witness :
    (0:ℚ) < 2 ∧ computeMargin 2 1 0 0 = ((2 - 1 - 0 - 0) / 2) * 100 :=
  ⟨by norm_num,
    (c7_margin_formula_and_pure 2 1 0 0 (by norm_num) (by norm_num)
      (by norm_num) (by norm_num)).1⟩

/-- C8: for price > cogs + fees + shipping > 0, the margin is strictly less
than 100, and strictly decreases when any single cost component increases,
price and the other components held fixed. -/
theorem c8_margin_lt_100_and_strict_decrease (p c f s : ℚ)
    (hc : 0 ≤ c) (hf : 0 ≤ f) (hs : 0 ≤ s)
    (hbase : 0 < c + f + s) (hlt : c + f + s < p) :
    computeMargin p c f s < 100 ∧
      (∀ c2, c < c2 → computeMargin p c2 f s < computeMargin p c f s) ∧
      (∀ f2, f < f2 → computeMargin p c f2 s < computeMargin p c f s) ∧
      (∀ s2, s < s2 → computeMargin p c f s2 < computeMargin p c f s) := by
  have hp : 0 < p := lt_trans hbase hlt
  have hpinv : 0 < p⁻¹ := inv_pos.mpr hp
  have key : ∀ a b : ℚ, a < b →
      ((a / p) * 100 : ℚ) < (b / p) * 100 := by
    intro a b hab
    rw [div_eq_mul_inv, div_eq_mul_inv]
    have h1 : a * p⁻¹ < b * p⁻¹ := mul_lt_mul_of_pos_right hab hpinv
    exact mul_lt_mul_of_pos_right h1 (by norm_num)
  refine ⟨?_, ?_, ?_, ?_⟩
  · have h1 : (p - c - f - s) / p < 1 := by
      rw [div_lt_one hp]
      linarith
    rw [computeMargin]
    nlinarith [h1]
  · intro c2 hc2
    rw [computeMargin, computeMargin]
    exact key _ _ (by linarith)
  · intro f2 hf2
    rw [computeMargin, computeMargin]
    exact key _ _ (by linarith)
  · intro s2 hs2
    rw [computeMargin, computeMargin]
    exact key _ _ (by linarith)

/-- Witness for C8 at price 2 and costs 1, 0, 0. -/
theorem c8_margin_lt_100_and_strict_decrease_witness :
    ((0:ℚ) < 1 + 0 + 0 ∧ (1:ℚ) + 0 + 0 < 2) ∧
      computeMargin 2 1 0 0 < 100 ∧
      computeMargin 2 (3/2) 0 0 < computeMargin 2 1 0 0 := by
  have h := c8_margin_lt_100_and_strict_decrease 2 1 0 0 (by norm_num)
    (by norm_num) (by norm_num) (by norm_num) (by norm_num)
  exact ⟨⟨by norm_num, by norm_num⟩, h.1, h.2.1 (3/2) (by norm_num)⟩

/-- C9: the scored record carries the name, platform, velocity, cogs, fees
and shipping of the raw signal unchanged; scoring only adds computed
fields. -/
theorem c9_score_preserves_input_fields (d : RawSignal) (idx : ℕ)
    (now : String) :
    (scoreTrend d idx now).name = d.name ∧
      (scoreTrend d idx now).platform = d.platform ∧
      (scoreTrend d idx now).velocity = d.velocity ∧
      (scoreTrend d idx now).cogs = d.cogs ∧
      (scoreTrend d idx now).fees = d.fees ∧
      (scoreTrend d idx now).shipping = d.shipping :=
  ⟨rfl, rfl, rfl, rfl, rfl, rfl⟩

/-- C10: the ladder, the margin and the profit score depend on the cost
components only through their sum: two raw signals with equal velocity and
equal cogs + fees + shipping get the same ladder, margin and profitScore. -/
theorem c10_costs_matter_only_through_sum (d e : RawSignal)
    (idx1 idx2 : ℕ) (now1 now2 : String)
    (hv : d.velocity = e.velocity)
    (hsum : d.cogs + d.fees + d.shipping = e.cogs + e.fees + e.shipping) :
    generatePriceLadder d.cogs d.fees d.shipping =
        generatePriceLadder e.cogs e.fees e.shipping ∧
      marginOf d = marginOf e ∧
      (scoreTrend d idx1 now1).profitScore =
        (scoreTrend e idx2 now2).profitScore := by
  have hladder : generatePriceLadder d.cogs d.fees d.shipping =
      generatePriceLadder e.cogs e.fees e.shipping := by
    rw [generatePriceLadder, generatePriceLadder, hsum]
  have hmargin : marginOf d = marginOf e := by
    rw [marginOf, marginOf, hladder, computeMargin_eq_sum,
      computeMargin_eq_sum, hsum]
  refine ⟨hladder, hmargin, ?_⟩
  show profitScoreOf d.velocity (marginOf d) =
    profitScoreOf e.velocity (marginOf e)
  rw [hv, hmargin]

/-- Witness for C10: costs 1, 2, 3 and 6, 0, 0 share the sum 6. -/
theorem c10_costs_matter_only_through_sum_witness :
    ((1:ℚ) + 2 + 3 = 6 + 0 + 0) ∧
      generatePriceLadder 1 2 3 = generatePriceLadder 6 0 0 ∧
      marginOf ⟨"x", Platform.tiktok, 5, 1, 2, 3⟩ =
        marginOf ⟨"y", Platform.etsy, 5, 6, 0, 0⟩ := by
  have h := c10_costs_matter_only_through_sum
    ⟨"x", Platform.tiktok, 5, 1, 2, 3⟩ ⟨"y", Platform.etsy, 5, 6, 0, 0⟩
    0 1 "t1" "t2" rfl (by norm_num)
  exact ⟨by norm_num, h.1, h.2.1⟩

end Trends
